import Mathlib

/-
Verification development for the elevenlabs-mcp-player repository.

The definitions below are shallow embeddings of the TypeScript source:
  - server.ts / unnamed part_001 : the play_audio and load_audio tool handlers;
  - unnamed part_002             : the HTTP /audio range file server;
  - src/mcp-app.tsx              : the player UI (queue merge, lazy loader,
                                   playback state machine, auto-advance).

JavaScript strings are modelled as Lean String (lists of characters),
JavaScript numbers arising in this code are integers or NaN, modelled as
Option Int with none standing for NaN.  Fallible operations return Except
or Option.
-/

namespace ElevenLabsPlayer

/-! ## Decimal rendering of JavaScript numbers

The server builds track ids with the template literal containing batchId
and the batch index, and the range server builds the Content-Range header
the same way.  JavaScript renders a nonnegative integer in decimal; we model
that rendering and prove it injective. -/

/-- Decimal digit character for a value below ten, as JavaScript prints it. -/
def digitChar (d : Nat) : Char := Char.ofNat (48 + d)

/-- Decimal digit list of a natural number, most significant digit first.
The first argument is structural fuel; it is sufficient whenever the
number is below the fuel. -/
def natDecCharsAux : Nat → Nat → List Char
  | 0, _ => []
  | fuel + 1, n =>
    if n < 10 then [digitChar n]
    else natDecCharsAux fuel (n / 10) ++ [digitChar (n % 10)]

/-- Decimal digit list of a natural number. -/
def natDecChars (n : Nat) : List Char := natDecCharsAux (n + 1) n

/-- Decimal string of a natural number, as a JavaScript template literal
renders it. -/
def natDecStr (n : Nat) : String := String.mk (natDecChars n)

/-- Value of a digit character. -/
def digitVal (c : Char) : Nat := c.toNat - 48

/-- Numeric value of a digit list, most significant digit first. -/
def decValue (l : List Char) : Nat := l.foldl (fun a c => a * 10 + digitVal c) 0

theorem digitVal_digitChar {d : Nat} (h : d < 10) : digitVal (digitChar d) = d := by
  interval_cases d <;> decide

theorem isDigit_digitChar {d : Nat} (h : d < 10) : (digitChar d).isDigit = true := by
  interval_cases d <;> decide

theorem decValue_append_digit (l : List Char) (c : Char) :
    decValue (l ++ [c]) = decValue l * 10 + digitVal c := by
  simp [decValue, List.foldl_append]

theorem decValue_natDecCharsAux : ∀ fuel n, n < fuel →
    decValue (natDecCharsAux fuel n) = n := by
  intro fuel
  induction fuel with
  | zero => intro n h; omega
  | succ fuel ih =>
    intro n h
    rw [natDecCharsAux]
    by_cases h10 : n < 10
    · simp only [h10, if_true]
      simp [decValue, digitVal_digitChar h10]
    · simp only [h10, if_false]
      rw [decValue_append_digit, ih (n / 10) (by omega),
        digitVal_digitChar (Nat.mod_lt n (by omega))]
      omega

theorem decValue_natDecChars (n : Nat) : decValue (natDecChars n) = n :=
  decValue_natDecCharsAux (n + 1) n (Nat.lt_succ_self n)

theorem natDecChars_injective : Function.Injective natDecChars := by
  intro m n h
  have := decValue_natDecChars m
  rw [h, decValue_natDecChars] at this
  omega

theorem isDigit_of_mem_natDecCharsAux : ∀ fuel n c, c ∈ natDecCharsAux fuel n →
    c.isDigit = true := by
  intro fuel
  induction fuel with
  | zero => intro n c h; simp [natDecCharsAux] at h
  | succ fuel ih =>
    intro n c h
    rw [natDecCharsAux] at h
    by_cases h10 : n < 10
    · simp only [h10, if_true, List.mem_singleton] at h
      subst h; exact isDigit_digitChar h10
    · simp only [h10, if_false, List.mem_append, List.mem_singleton] at h
      rcases h with h | h
      · exact ih _ _ h
      · subst h; exact isDigit_digitChar (Nat.mod_lt n (by omega))

theorem dash_not_mem_natDecChars (n : Nat) : '-' ∉ natDecChars n := by
  intro h
  have := isDigit_of_mem_natDecCharsAux (n + 1) n '-' h
  simp [Char.isDigit] at this

/-- The ids assigned by the play_audio handler: the template literal
joining the batch id and the index within the batch with a dash. -/
def jsTemplateId (batchId i : Nat) : String :=
  natDecStr batchId ++ "-" ++ natDecStr i

theorem string_append_data (a b : String) : (a ++ b).data = a.data ++ b.data := by
  cases a; cases b; rfl

theorem jsTemplateId_data (b i : Nat) :
    (jsTemplateId b i).data = natDecChars b ++ '-' :: natDecChars i := by
  show ((natDecStr b ++ "-") ++ natDecStr i).data = _
  rw [string_append_data, string_append_data]
  show natDecChars b ++ ['-'] ++ natDecChars i = _
  simp

theorem dashFree_split_unique : ∀ (l₁ m₁ l₂ m₂ : List Char),
    l₁ ++ '-' :: l₂ = m₁ ++ '-' :: m₂ → '-' ∉ l₁ → '-' ∉ m₁ →
    l₁ = m₁ ∧ l₂ = m₂ := by
  intro l₁
  induction l₁ with
  | nil =>
    intro m₁ l₂ m₂ heq hl hm
    cases m₁ with
    | nil => simpa using heq
    | cons c m₁ =>
      simp only [List.nil_append, List.cons_append, List.cons.injEq] at heq
      exact absurd (heq.1 ▸ List.mem_cons_self c m₁) (heq.1 ▸ hm)
  | cons c l₁ ih =>
    intro m₁ l₂ m₂ heq hl hm
    cases m₁ with
    | nil =>
      simp only [List.cons_append, List.nil_append, List.cons.injEq] at heq
      exact absurd (heq.1 ▸ List.mem_cons_self c l₁) fun hc => hl (heq.1 ▸ hc)
    | cons c' m₁ =>
      simp only [List.cons_append, List.cons.injEq] at heq
      have := ih m₁ l₂ m₂ heq.2 (fun h => hl (List.mem_cons_of_mem c h))
        (fun h => hm (List.mem_cons_of_mem c' h))
      exact ⟨by rw [heq.1, this.1], this.2⟩

theorem jsTemplateId_inj {b₁ i₁ b₂ i₂ : Nat}
    (h : jsTemplateId b₁ i₁ = jsTemplateId b₂ i₂) : b₁ = b₂ ∧ i₁ = i₂ := by
  have hdata : (jsTemplateId b₁ i₁).data = (jsTemplateId b₂ i₂).data := by rw [h]
  rw [jsTemplateId_data, jsTemplateId_data] at hdata
  have := dashFree_split_unique _ _ _ _ hdata
    (dash_not_mem_natDecChars b₁) (dash_not_mem_natDecChars b₂)
  exact ⟨natDecChars_injective this.1, natDecChars_injective this.2⟩

/-! ## Queue model and merge (src/mcp-app.tsx, ontoolresult)

A UI track as held in React state: id, lazily loaded src (null until the
audio is loaded), and display data. -/

structure UiTrack where
  id : String
  src : Option String
  title : String
  artist : Option String
  filePath : String
deriving DecidableEq, Repr

/-- The queue merge performed inside setTracks when a tool result arrives:
build the set of existing ids, keep only the incoming tracks whose id is
not already present, and append them in order. -/
def mergeTracks (prev incoming : List UiTrack) : List UiTrack :=
  prev ++ incoming.filter (fun t => !(prev.any (fun p => p.id == t.id)))

theorem mergeTracks_nil_right (prev : List UiTrack) : mergeTracks prev [] = prev := by
  simp [mergeTracks]

theorem mem_id_mergeTracks {prev incoming : List UiTrack} {t : UiTrack}
    (h : t ∈ incoming) :
    (mergeTracks prev incoming).any (fun p => p.id == t.id) = true := by
  by_cases hp : prev.any (fun p => p.id == t.id) = true
  · rcases List.any_eq_true.mp hp with ⟨p, hpmem, hpid⟩
    exact List.any_eq_true.mpr ⟨p, List.mem_append_left _ hpmem, hpid⟩
  · refine List.any_eq_true.mpr ⟨t, List.mem_append_right _ ?_, by simp⟩
    exact List.mem_filter.mpr ⟨h, by simp [hp]⟩

theorem mergeTracks_idem (prev incoming : List UiTrack) :
    mergeTracks (mergeTracks prev incoming) incoming = mergeTracks prev incoming := by
  have hfil : (incoming.filter
      (fun t => !((mergeTracks prev incoming).any (fun p => p.id == t.id)))) = [] := by
    apply List.filter_eq_nil_iff.mpr
    intro t ht
    simp [mem_id_mergeTracks ht]
  show mergeTracks prev incoming ++ _ = mergeTracks prev incoming
  rw [hfil, List.append_nil]

theorem mergeTracks_nodup {prev incoming : List UiTrack}
    (hprev : (prev.map UiTrack.id).Nodup) (hinc : (incoming.map UiTrack.id).Nodup) :
    ((mergeTracks prev incoming).map UiTrack.id).Nodup := by
  rw [mergeTracks, List.map_append, List.nodup_append]
  refine ⟨hprev, ?_, ?_⟩
  · exact hinc.sublist ((List.filter_sublist incoming).map UiTrack.id)
  · intro a ha hb
    rcases List.mem_map.mp hb with ⟨t, htmem, htid⟩
    rcases List.mem_filter.mp htmem with ⟨_, hkeep⟩
    rcases List.mem_map.mp ha with ⟨p, hpmem, hpid⟩
    have : prev.any (fun p => p.id == t.id) = true :=
      List.any_eq_true.mpr ⟨p, hpmem, by simp [hpid, htid]⟩
    simp [this] at hkeep

/-! ## Track registry: the play_audio tool handler (server.ts)

The handler resolves each file path, checks existence, and either aborts
the whole batch with an error naming the failing absolute path, or returns
one validated track per input.  The filesystem existence check and path
resolution are modelled as function parameters. -/

structure TrackInput where
  filePath : String
  title : String
  artist : Option String
deriving DecidableEq, Repr

structure ValidatedTrack where
  id : String
  filePath : String
  title : String
  artist : Option String
deriving DecidableEq, Repr

/-- Loop body of the play_audio handler: walk the inputs in order keeping
the index, push a validated track for each existing file and return the
error result at the first missing file. -/
def playAudioGo (fsys : String → Bool) (resolve : String → String) (batchId : Nat) :
    Nat → List ValidatedTrack → List TrackInput → Except String (List ValidatedTrack)
  | _, acc, [] => .ok acc
  | i, acc, t :: rest =>
    let absolutePath := resolve t.filePath
    if fsys absolutePath then
      playAudioGo fsys resolve batchId (i + 1)
        (acc ++ [⟨jsTemplateId batchId i, absolutePath, t.title, t.artist⟩]) rest
    else .error ("File not found: " ++ absolutePath)

/-- The play_audio tool handler (server.ts lines 104-132). -/
def playAudio (fsys : String → Bool) (resolve : String → String) (batchId : Nat)
    (tracks : List TrackInput) : Except String (List ValidatedTrack) :=
  playAudioGo fsys resolve batchId 0 [] tracks

/-- Tracks carried by a tool result: an error result has no structured
content, so the UI parses zero tracks from it. -/
def resultTracks : Except String (List ValidatedTrack) → List ValidatedTrack
  | .ok l => l
  | .error _ => []

/-- Conversion the UI applies to server track metadata: audio is not
loaded yet, so src starts null (parseTracksFromResult). -/
def uiOfValidated (l : List ValidatedTrack) : List UiTrack :=
  l.map (fun t => ⟨t.id, none, t.title, t.artist, t.filePath⟩)

/-- Reference function written from the spec wording for the success case
of registration: one validated track per input, in input order, carrying
the resolved absolute path and the batch-sequence id. -/
def registrySpec (resolve : String → String) (batchId : Nat) :
    Nat → List TrackInput → List ValidatedTrack
  | _, [] => []
  | i, t :: rest =>
    ⟨jsTemplateId batchId i, resolve t.filePath, t.title, t.artist⟩ ::
      registrySpec resolve batchId (i + 1) rest

theorem playAudioGo_all_ok (fsys : String → Bool) (resolve : String → String)
    (batchId : Nat) : ∀ (tracks : List TrackInput) (i : Nat) (acc : List ValidatedTrack),
    (∀ t ∈ tracks, fsys (resolve t.filePath) = true) →
    playAudioGo fsys resolve batchId i acc tracks =
      .ok (acc ++ registrySpec resolve batchId i tracks) := by
  intro tracks
  induction tracks with
  | nil => intro i acc _; simp [playAudioGo, registrySpec]
  | cons t rest ih =>
    intro i acc hall
    rw [playAudioGo]
    simp only [hall t (List.mem_cons_self t rest), if_true]
    rw [ih (i + 1) _ (fun u hu => hall u (List.mem_cons_of_mem t hu)), registrySpec]
    simp

theorem playAudioGo_first_fail (fsys : String → Bool) (resolve : String → String)
    (batchId : Nat) : ∀ (pre : List TrackInput) (tj : TrackInput)
    (post : List TrackInput) (i : Nat) (acc : List ValidatedTrack),
    (∀ t ∈ pre, fsys (resolve t.filePath) = true) →
    fsys (resolve tj.filePath) = false →
    playAudioGo fsys resolve batchId i acc (pre ++ tj :: post) =
      .error ("File not found: " ++ resolve tj.filePath) := by
  intro pre
  induction pre with
  | nil =>
    intro tj post i acc _ hfail
    rw [List.nil_append, playAudioGo]
    simp [hfail]
  | cons t pre ih =>
    intro tj post i acc hpre hfail
    rw [List.cons_append, playAudioGo]
    simp only [hpre t (List.mem_cons_self t pre), if_true]
    exact ih tj post (i + 1) _ (fun u hu => hpre u (List.mem_cons_of_mem t hu)) hfail

theorem playAudioGo_ok_shape (fsys : String → Bool) (resolve : String → String)
    (batchId : Nat) : ∀ (tracks : List TrackInput) (i : Nat)
    (acc out : List ValidatedTrack),
    playAudioGo fsys resolve batchId i acc tracks = .ok out →
    out = acc ++ registrySpec resolve batchId i tracks := by
  intro tracks
  induction tracks with
  | nil =>
    intro i acc out h
    rw [playAudioGo] at h
    cases h
    simp [registrySpec]
  | cons t rest ih =>
    intro i acc out h
    rw [playAudioGo] at h
    by_cases hok : fsys (resolve t.filePath) = true
    · simp only [hok, if_true] at h
      rw [ih (i + 1) _ out h, registrySpec]
      simp
    · simp [hok] at h

theorem mem_id_registrySpec (resolve : String → String) (batchId : Nat) :
    ∀ (tracks : List TrackInput) (i : Nat) (s : String),
    s ∈ (registrySpec resolve batchId i tracks).map ValidatedTrack.id →
    ∃ k, i ≤ k ∧ s = jsTemplateId batchId k := by
  intro tracks
  induction tracks with
  | nil => intro i s h; simp [registrySpec] at h
  | cons t rest ih =>
    intro i s h
    rw [registrySpec] at h
    rcases List.mem_cons.mp h with h | h
    · exact ⟨i, Nat.le_refl i, h⟩
    · rcases ih (i + 1) s h with ⟨k, hk, hs⟩
      exact ⟨k, by omega, hs⟩

theorem registrySpec_ids_nodup (resolve : String → String) (batchId : Nat) :
    ∀ (tracks : List TrackInput) (i : Nat),
    ((registrySpec resolve batchId i tracks).map ValidatedTrack.id).Nodup := by
  intro tracks
  induction tracks with
  | nil => intro i; simp [registrySpec]
  | cons t rest ih =>
    intro i
    rw [registrySpec]
    simp only [List.map_cons, List.nodup_cons]
    refine ⟨fun hmem => ?_, ih (i + 1)⟩
    rcases mem_id_registrySpec resolve batchId rest (i + 1) _ hmem with ⟨k, hk, hs⟩
    have := (jsTemplateId_inj hs).2
    omega

/-! ## Claim C1: queue merge -/

/-- C1 (counterexample): the claim quantifies over every incoming track
list, but when the incoming list itself contains two entries with the same
id, both survive the filter against the existing ids, so the merged queue
does contain two entries sharing an id.  Here the existing queue is empty
(so its ids are trivially pairwise distinct). -/
theorem queue_merge_counterexample :
    ((([] : List UiTrack)).map UiTrack.id).Nodup ∧
    ¬ ((mergeTracks []
        [⟨"x", none, "A", none, "/a.mp3"⟩, ⟨"x", none, "B", none, "/b.mp3"⟩]).map
          UiTrack.id).Nodup := by
  constructor
  · simp
  · decide

/-- C1 (amended): for every existing queue with pairwise-distinct ids and
every incoming track list whose entries also have pairwise-distinct ids,
the merge equals the existing queue followed by exactly those incoming
entries whose id is not already present, in incoming order; the merged
queue then has no two entries sharing an id, and merging the same incoming
list a second time leaves the queue unchanged. -/
theorem queue_merge_dedup_idem (prev incoming : List UiTrack)
    (hprev : (prev.map UiTrack.id).Nodup)
    (hinc : (incoming.map UiTrack.id).Nodup) :
    mergeTracks prev incoming =
      prev ++ incoming.filter (fun t => !(prev.any (fun p => p.id == t.id))) ∧
    ((mergeTracks prev incoming).map UiTrack.id).Nodup ∧
    mergeTracks (mergeTracks prev incoming) incoming = mergeTracks prev incoming :=
  ⟨rfl, mergeTracks_nodup hprev hinc, mergeTracks_idem prev incoming⟩

/-- Witness for the amended C1, at a queue already holding id a and an
incoming batch that repeats id a and adds id b. -/
theorem queue_merge_dedup_idem_witness :
    ((mergeTracks [⟨"a", none, "A", none, "/a"⟩]
        [⟨"a", none, "A2", none, "/a2"⟩, ⟨"b", none, "B", none, "/b"⟩]).map
          UiTrack.id).Nodup ∧
    mergeTracks (mergeTracks [⟨"a", none, "A", none, "/a"⟩]
        [⟨"a", none, "A2", none, "/a2"⟩, ⟨"b", none, "B", none, "/b"⟩])
        [⟨"a", none, "A2", none, "/a2"⟩, ⟨"b", none, "B", none, "/b"⟩] =
      mergeTracks [⟨"a", none, "A", none, "/a"⟩]
        [⟨"a", none, "A2", none, "/a2"⟩, ⟨"b", none, "B", none, "/b"⟩] := by
  have h := queue_merge_dedup_idem [⟨"a", none, "A", none, "/a"⟩]
    [⟨"a", none, "A2", none, "/a2"⟩, ⟨"b", none, "B", none, "/b"⟩]
    (by decide) (by decide)
  exact ⟨h.2.1, h.2.2⟩

/-! ## Claim C2: all-or-nothing registration -/

/-- C2: if some entry of the batch fails the existence check, the handler
aborts with an error naming the resolved absolute path of the first
failing entry, the result carries no registered tracks, and the queue
gains zero entries from it; if every entry exists, the result holds one
validated track per input, in input order, with resolved absolute
paths. -/
theorem play_audio_all_or_nothing (fsys : String → Bool)
    (resolve : String → String) (batchId : Nat) :
    (∀ (pre : List TrackInput) (tj : TrackInput) (post : List TrackInput),
      (∀ t ∈ pre, fsys (resolve t.filePath) = true) →
      fsys (resolve tj.filePath) = false →
      playAudio fsys resolve batchId (pre ++ tj :: post) =
        .error ("File not found: " ++ resolve tj.filePath) ∧
      ∀ q : List UiTrack,
        mergeTracks q (uiOfValidated (resultTracks
          (playAudio fsys resolve batchId (pre ++ tj :: post)))) = q) ∧
    (∀ tracks : List TrackInput,
      (∀ t ∈ tracks, fsys (resolve t.filePath) = true) →
      playAudio fsys resolve batchId tracks =
        .ok (registrySpec resolve batchId 0 tracks)) := by
  constructor
  · intro pre tj post hpre hfail
    have herr := playAudioGo_first_fail fsys resolve batchId pre tj post 0 [] hpre hfail
    refine ⟨herr, fun q => ?_⟩
    rw [playAudio] at *
    rw [herr]
    simp [resultTracks, uiOfValidated, mergeTracks_nil_right]
  · intro tracks hall
    have := playAudioGo_all_ok fsys resolve batchId tracks 0 [] hall
    rw [playAudio, this]
    simp

/-- Witness for C2: a three-entry batch whose second file is missing is
rejected wholesale with the second path named, and a batch of existing
files registers in order. -/
theorem play_audio_all_or_nothing_witness :
    playAudio (fun p => p == "/a.mp3" || p == "/c.mp3") (fun p => p) 7
        [⟨"/a.mp3", "A", none⟩, ⟨"/b.mp3", "B", none⟩, ⟨"/c.mp3", "C", none⟩] =
      .error ("File not found: " ++ "/b.mp3") ∧
    (∀ q : List UiTrack,
      mergeTracks q (uiOfValidated (resultTracks
        (playAudio (fun p => p == "/a.mp3" || p == "/c.mp3") (fun p => p) 7
          [⟨"/a.mp3", "A", none⟩, ⟨"/b.mp3", "B", none⟩, ⟨"/c.mp3", "C", none⟩]))) = q) ∧
    playAudio (fun p => p == "/a.mp3" || p == "/c.mp3") (fun p => p) 7
        [⟨"/a.mp3", "A", none⟩, ⟨"/c.mp3", "C", none⟩] =
      .ok [⟨"7-0", "/a.mp3", "A", none⟩, ⟨"7-1", "/c.mp3", "C", none⟩] := by
  have h := play_audio_all_or_nothing
    (fun p => p == "/a.mp3" || p == "/c.mp3") (fun p => p) 7
  have herr := h.1 [⟨"/a.mp3", "A", none⟩] ⟨"/b.mp3", "B", none⟩
    [⟨"/c.mp3", "C", none⟩] (by decide) (by decide)
  have hok := h.2 [⟨"/a.mp3", "A", none⟩, ⟨"/c.mp3", "C", none⟩] (by decide)
  refine ⟨herr.1, herr.2, ?_⟩
  rw [hok]
  rfl

/-! ## Claim C4: track id uniqueness -/

/-- C4 (counterexample): batch ids come from the millisecond clock, so two
invocations observing the same Date.now value assign colliding ids; here
both batches see timestamp 100 and both assign the id joining 100 and 0,
so the ids of the two invocations are not pairwise distinct. -/
theorem track_id_counterexample :
    (resultTracks (playAudio (fun _ => true) (fun p => p) 100
        [⟨"/a.mp3", "A", none⟩])).map ValidatedTrack.id = ["100-0"] ∧
    (resultTracks (playAudio (fun _ => true) (fun p => p) 100
        [⟨"/b.mp3", "B", none⟩])).map ValidatedTrack.id = ["100-0"] ∧
    ¬ (∀ s ∈ (resultTracks (playAudio (fun _ => true) (fun p => p) 100
          [⟨"/a.mp3", "A", none⟩])).map ValidatedTrack.id,
        s ∉ (resultTracks (playAudio (fun _ => true) (fun p => p) 100
          [⟨"/b.mp3", "B", none⟩])).map ValidatedTrack.id) := by
  refine ⟨by decide, by decide, ?_⟩
  intro h
  exact h "100-0" (by decide) (by decide)

/-- C4 (amended): within a single batch every entry receives a distinct
id, and the ids of two batches are pairwise distinct whenever the two
batch timestamps differ; uniqueness across repeated submissions therefore
holds exactly when no two batches observe the same Date.now value. -/
theorem track_id_uniqueness (fsys₁ fsys₂ : String → Bool)
    (resolve₁ resolve₂ : String → String) (b₁ b₂ : Nat)
    (tr₁ tr₂ : List TrackInput) (l₁ l₂ : List ValidatedTrack)
    (h₁ : playAudio fsys₁ resolve₁ b₁ tr₁ = .ok l₁)
    (h₂ : playAudio fsys₂ resolve₂ b₂ tr₂ = .ok l₂) :
    (l₁.map ValidatedTrack.id).Nodup ∧
    (b₁ ≠ b₂ → ∀ s ∈ l₁.map ValidatedTrack.id, s ∉ l₂.map ValidatedTrack.id) := by
  have hl₁ : l₁ = registrySpec resolve₁ b₁ 0 tr₁ := by
    have := playAudioGo_ok_shape fsys₁ resolve₁ b₁ tr₁ 0 [] l₁ h₁
    simpa using this
  have hl₂ : l₂ = registrySpec resolve₂ b₂ 0 tr₂ := by
    have := playAudioGo_ok_shape fsys₂ resolve₂ b₂ tr₂ 0 [] l₂ h₂
    simpa using this
  subst hl₁; subst hl₂
  refine ⟨registrySpec_ids_nodup resolve₁ b₁ tr₁ 0, fun hne s hs₁ hs₂ => ?_⟩
  rcases mem_id_registrySpec resolve₁ b₁ tr₁ 0 s hs₁ with ⟨k₁, _, he₁⟩
  rcases mem_id_registrySpec resolve₂ b₂ tr₂ 0 s hs₂ with ⟨k₂, _, he₂⟩
  exact hne (jsTemplateId_inj (he₁ ▸ he₂)).1

/-- Witness for the amended C4, with batch timestamps 100 and 101. -/
theorem track_id_uniqueness_witness :
    ((resultTracks (playAudio (fun _ => true) (fun p => p) 100
        [⟨"/a.mp3", "A", none⟩, ⟨"/b.mp3", "B", none⟩])).map ValidatedTrack.id).Nodup ∧
    (∀ s ∈ (resultTracks (playAudio (fun _ => true) (fun p => p) 100
        [⟨"/a.mp3", "A", none⟩, ⟨"/b.mp3", "B", none⟩])).map ValidatedTrack.id,
      s ∉ (resultTracks (playAudio (fun _ => true) (fun p => p) 101
        [⟨"/a.mp3", "A", none⟩])).map ValidatedTrack.id) := by
  have h := track_id_uniqueness (fun _ => true) (fun _ => true)
    (fun p => p) (fun p => p) 100 101
    [⟨"/a.mp3", "A", none⟩, ⟨"/b.mp3", "B", none⟩] [⟨"/a.mp3", "A", none⟩]
    (resultTracks (playAudio (fun _ => true) (fun p => p) 100
      [⟨"/a.mp3", "A", none⟩, ⟨"/b.mp3", "B", none⟩]))
    (resultTracks (playAudio (fun _ => true) (fun p => p) 101
      [⟨"/a.mp3", "A", none⟩]))
    (by rfl) (by rfl)
  exact ⟨h.1, h.2 (by decide)⟩

/-! ## Range file server (unnamed part_002, startStreamableHttpServer)

The /audio Express handler.  JavaScript numbers reaching this code are
integers or NaN; NaN is modelled as none. -/

/-- JavaScript number in this code path: an integer, or NaN (none). -/
abbrev JsNumber := Option Int

/-- Longest digit prefix value, none when there is no leading digit;
this is the digit-consuming core of parseInt with radix ten. -/
def parseDigits (l : List Char) : Option Nat :=
  let ds := l.takeWhile Char.isDigit
  if ds.isEmpty then none
  else some (ds.foldl (fun a c => a * 10 + digitVal c) 0)

def isJsSpace (c : Char) : Bool := c = ' ' || c = '\t' || c = '\n' || c = '\r'

/-- JS parseInt with radix ten: skip leading whitespace, an optional
sign, then the longest digit prefix; none models NaN. -/
def parseIntJs (l : List Char) : Option Int :=
  match l.dropWhile isJsSpace with
  | '-' :: rest => (parseDigits rest).map (fun n => -(n : Int))
  | '+' :: rest => (parseDigits rest).map (fun n => (n : Int))
  | rest => (parseDigits rest).map (fun n => (n : Int))

/-- Drop pat from the front of a list when it matches there. -/
def dropPat : List Char → List Char → Option (List Char)
  | [], l => some l
  | _ :: _, [] => none
  | p :: ps, c :: cs => if c = p then dropPat ps cs else none

/-- JS String.replace with a plain pattern: remove the first occurrence
of pat, leaving the string unchanged when pat does not occur. -/
def replaceFirst (pat : List Char) : List Char → List Char
  | [] => []
  | c :: cs =>
    match dropPat pat (c :: cs) with
    | some rest => rest
    | none => c :: replaceFirst pat cs

/-- JS String.split with a one-character separator: split on every
occurrence, keeping empty pieces. -/
def splitCharAux (sep : Char) : List Char → List Char → List (List Char)
  | [], acc => [acc.reverse]
  | c :: cs, acc =>
    if c = sep then acc.reverse :: splitCharAux sep cs []
    else splitCharAux sep cs (c :: acc)

def splitChar (sep : Char) (l : List Char) : List (List Char) := splitCharAux sep l []

/-- Decimal rendering of a JavaScript number, as template literals print
it: NaN renders as the three letters, negatives with a leading dash. -/
def jsNumStr : JsNumber → String
  | none => "NaN"
  | some i => if i < 0 then "-" ++ natDecStr i.natAbs else natDecStr i.natAbs

/-- The extension-to-MIME table of the /audio handler. -/
def mimeTypes : List (String × String) :=
  [(".mp3", "audio/mpeg"), (".wav", "audio/wav"), (".ogg", "audio/ogg"),
   (".m4a", "audio/mp4"), (".aac", "audio/aac")]

/-- Model of path.extname: the substring of the last path segment from
its last dot, empty when the segment has no dot or only a leading dot. -/
def extname (p : String) : String :=
  let revBase := p.data.reverse.takeWhile (fun c => !(c = '/'))
  let afterDot := revBase.takeWhile (fun c => !(c = '.'))
  if afterDot.length + 1 < revBase.length then String.mk ('.' :: afterDot.reverse)
  else ""

def toLowerStr (s : String) : String := String.mk (s.data.map Char.toLower)

/-- Content type lookup: lowercased extension against the table, default
application/octet-stream. -/
def mimeForPath (p : String) : String :=
  ((mimeTypes).lookup (toLowerStr (extname p))).getD "application/octet-stream"

/-- Range header parsing of the handler: strip the first bytes= from the
header, split on dashes, parseInt the first piece, and take the second
piece when it is nonempty, else default to fileSize minus one. -/
def parseRange (hdr : String) (fileSize : Nat) : JsNumber × JsNumber :=
  let parts := splitChar '-' (replaceFirst ("bytes=".data) hdr.data)
  let startN := parseIntJs (parts.headD [])
  let endN := match parts[1]? with
    | some p1 => if p1.isEmpty then some ((fileSize : Int) - 1) else parseIntJs p1
    | none => some ((fileSize : Int) - 1)
  (startN, endN)

/-- Model of fs.createReadStream with start and end options: the
constructor throws unless start and end are nonnegative integers with
start at most end (NaN is not an integer), so no file bytes are sent in
that case; otherwise it yields the inclusive slice, truncated at end of
file. -/
def streamBytes (bytes : List Nat) : JsNumber → JsNumber → Option (List Nat)
  | some s, some e =>
    if 0 ≤ s ∧ s ≤ e then some ((bytes.drop s.toNat).take (e.toNat - s.toNat + 1))
    else none
  | _, _ => none

structure AudioRequest where
  path : Option String
  range : Option String
deriving DecidableEq, Repr

/-- Observable response of the /audio handler.  The body field holds the
file bytes streamed to the client; none means no file bytes are sent
(text error responses, or the read stream failing to open after the
headers were already written). -/
structure AudioResponse where
  status : Nat
  contentType : Option String
  contentLength : Option JsNumber
  contentRange : Option String
  acceptRanges : Bool
  body : Option (List Nat)
deriving DecidableEq, Repr

/-- The GET /audio Express handler: missing (or empty, which is falsy)
path gives 400; unresolvable file gives 404; no Range header gives 200
with the whole file; a Range header gives 206 with the parsed slice. -/
def serveAudio (fsys : String → Option (List Nat)) (resolve : String → String)
    (req : AudioRequest) : AudioResponse :=
  match req.path with
  | none =>
    { status := 400, contentType := none, contentLength := none,
      contentRange := none, acceptRanges := false, body := none }
  | some p =>
    if p = "" then
      { status := 400, contentType := none, contentLength := none,
        contentRange := none, acceptRanges := false, body := none }
    else
      let absolutePath := resolve p
      match fsys absolutePath with
      | none =>
        { status := 404, contentType := none, contentLength := none,
          contentRange := none, acceptRanges := false, body := none }
      | some bytes =>
        let fileSize := bytes.length
        let contentType := mimeForPath absolutePath
        match req.range with
        | none =>
          { status := 200, contentType := some contentType,
            contentLength := some (some (fileSize : Int)), contentRange := none,
            acceptRanges := true, body := some bytes }
        | some rangeHdr =>
          let pr := parseRange rangeHdr fileSize
          let chunkSize : JsNumber := match pr.1, pr.2 with
            | some s, some e => some (e - s + 1)
            | _, _ => none
          { status := 206, contentType := some contentType,
            contentLength := some chunkSize,
            contentRange := some ("bytes " ++ jsNumStr pr.1 ++ "-" ++
              jsNumStr pr.2 ++ "/" ++ natDecStr fileSize),
            acceptRanges := true,
            body := streamBytes bytes pr.1 pr.2 }

/-! ## Claim C3: range file server correctness -/

/-- C3: missing path gives 400; unresolvable path gives 404; no Range
header gives 200 with Content-Length equal to the file size,
Accept-Ranges bytes, and the whole file as body; a Range header parsing
to start and end with 0 le start le end le size minus one gives 206 with
the advertised Content-Range and Content-Length equal to end minus start
plus one, the body being exactly the bytes from start to end (the final
conjunct states that an omitted end defaults to size minus one). -/
theorem range_server_correct (fsys : String → Option (List Nat))
    (resolve : String → String) :
    (∀ r, (serveAudio fsys resolve ⟨none, r⟩).status = 400 ∧
      (serveAudio fsys resolve ⟨none, r⟩).body = none) ∧
    (∀ p r, p ≠ "" → fsys (resolve p) = none →
      (serveAudio fsys resolve ⟨some p, r⟩).status = 404 ∧
      (serveAudio fsys resolve ⟨some p, r⟩).body = none) ∧
    (∀ p bytes, p ≠ "" → fsys (resolve p) = some bytes →
      serveAudio fsys resolve ⟨some p, none⟩ =
        { status := 200, contentType := some (mimeForPath (resolve p)),
          contentLength := some (some (bytes.length : Int)), contentRange := none,
          acceptRanges := true, body := some bytes }) ∧
    (∀ (p : String) (bytes : List Nat) (hdr : String) (s e : Int), p ≠ "" →
      fsys (resolve p) = some bytes →
      parseRange hdr bytes.length = (some s, some e) →
      0 ≤ s → s ≤ e → e ≤ (bytes.length : Int) - 1 →
      serveAudio fsys resolve ⟨some p, some hdr⟩ =
        { status := 206, contentType := some (mimeForPath (resolve p)),
          contentLength := some (some (e - s + 1)),
          contentRange := some ("bytes " ++ jsNumStr (some s) ++ "-" ++
            jsNumStr (some e) ++ "/" ++ natDecStr bytes.length),
          acceptRanges := true,
          body := some ((bytes.drop s.toNat).take (e.toNat - s.toNat + 1)) } ∧
      ((bytes.drop s.toNat).take (e.toNat - s.toNat + 1)).length = (e - s + 1).toNat) ∧
    (∀ (hdr : String) (s1 : List Char) (N : Nat),
      splitChar '-' (replaceFirst ("bytes=".data) hdr.data) = [s1, []] →
      parseRange hdr N = (parseIntJs s1, some ((N : Int) - 1))) := by
  refine ⟨fun r => ⟨rfl, rfl⟩, ?_, ?_, ?_, ?_⟩
  · intro p r hp hfs
    simp [serveAudio, hp, hfs]
  · intro p bytes hp hfs
    simp [serveAudio, hp, hfs]
  · intro p bytes hdr s e hp hfs hparse hs0 hse hetop
    constructor
    · simp only [serveAudio, hp, if_neg hp, hfs]
      rw [hparse]
      simp only [streamBytes, if_pos (And.intro hs0 hse)]
      simp
    · rw [List.length_take, List.length_drop]
      omega
  · intro hdr s1 N hsplit
    rw [parseRange]
    rw [hsplit]
    simp

/-- Witness for C3: a four-byte file requested with the range from one to
two returns 206, Content-Range bytes 1-2/4, Content-Length two and
exactly the two middle bytes; the same file without a Range header
returns 200 with all four bytes. -/
theorem range_server_correct_witness :
    serveAudio (fun q => if q = "/a.mp3" then some [10, 20, 30, 40] else none)
        (fun q => q) ⟨some "/a.mp3", some "bytes=1-2"⟩ =
      { status := 206, contentType := some "audio/mpeg",
        contentLength := some (some 2), contentRange := some "bytes 1-2/4",
        acceptRanges := true, body := some [20, 30] } ∧
    serveAudio (fun q => if q = "/a.mp3" then some [10, 20, 30, 40] else none)
        (fun q => q) ⟨some "/a.mp3", none⟩ =
      { status := 200, contentType := some "audio/mpeg",
        contentLength := some (some 4), contentRange := none,
        acceptRanges := true, body := some [10, 20, 30, 40] } := by
  have h := range_server_correct
    (fun q => if q = "/a.mp3" then some [10, 20, 30, 40] else none) (fun q => q)
  have h206 := h.2.2.2.1 "/a.mp3" [10, 20, 30, 40] "bytes=1-2" 1 2
    (by decide) (by decide) (by decide) (by decide) (by decide) (by decide)
  have h200 := h.2.2.1 "/a.mp3" [10, 20, 30, 40] (by decide) (by decide)
  constructor
  · rw [h206.1]; decide
  · rw [h200]; decide

/-! ## Claim C10: malformed range handling -/

/-- C10 (counterexample): on an existing file, a malformed Range header
is not rejected with 400; the handler parses NaN, writes the 206 header
anyway, and only the stream construction fails, so no file bytes are
sent. -/
theorem malformed_range_counterexample :
    (serveAudio (fun q => if q = "/a.mp3" then some [10, 20, 30, 40] else none)
        (fun q => q) ⟨some "/a.mp3", some "bytes=abc-"⟩).status = 206 ∧
    ¬ (serveAudio (fun q => if q = "/a.mp3" then some [10, 20, 30, 40] else none)
        (fun q => q) ⟨some "/a.mp3", some "bytes=abc-"⟩).status = 400 ∧
    (serveAudio (fun q => if q = "/a.mp3" then some [10, 20, 30, 40] else none)
        (fun q => q) ⟨some "/a.mp3", some "bytes=abc-"⟩).body = none := by
  decide

/-- C10 (amended): for every GET /audio request on an existing file whose
Range header parses to a NaN start (for example bytes=abc- or bytes=-),
the server does not respond 400: it writes status 206 with a NaN
Content-Length, and no file bytes are streamed because the read stream
constructor rejects the NaN offset. -/
theorem malformed_range_behavior (fsys : String → Option (List Nat))
    (resolve : String → String) (p : String) (bytes : List Nat) (hdr : String)
    (hp : p ≠ "") (hfs : fsys (resolve p) = some bytes)
    (hstart : (parseRange hdr bytes.length).1 = none) :
    (serveAudio fsys resolve ⟨some p, some hdr⟩).status = 206 ∧
    (serveAudio fsys resolve ⟨some p, some hdr⟩).contentLength = some none ∧
    (serveAudio fsys resolve ⟨some p, some hdr⟩).body = none := by
  simp only [serveAudio, if_neg hp, hfs]
  rcases hpr : parseRange hdr bytes.length with ⟨a, b⟩
  rw [hpr] at hstart
  simp only at hstart
  subst hstart
  cases b <;> simp [streamBytes]

/-- Witness for the amended C10, with the header bytes=- from the claim. -/
theorem malformed_range_behavior_witness :
    (serveAudio (fun q => if q = "/b.wav" then some [1, 2, 3] else none)
        (fun q => q) ⟨some "/b.wav", some "bytes=-"⟩).status = 206 ∧
    (serveAudio (fun q => if q = "/b.wav" then some [1, 2, 3] else none)
        (fun q => q) ⟨some "/b.wav", some "bytes=-"⟩).contentLength = some none ∧
    (serveAudio (fun q => if q = "/b.wav" then some [1, 2, 3] else none)
        (fun q => q) ⟨some "/b.wav", some "bytes=-"⟩).body = none :=
  malformed_range_behavior (fun q => if q = "/b.wav" then some [1, 2, 3] else none)
    (fun q => q) "/b.wav" [1, 2, 3] "bytes=-" (by decide) (by decide) (by decide)

/-! ## Playback state machine (src/mcp-app.tsx, lazy variant)

React state of AudioPlayerContent together with the audio-player context:
the queue, the player's active item (id and src as passed to play or
setActiveItem), the playing flag, the loading guard, the repeat mode, the
two refs used by the auto-select effects, and an instrumentation counter
for load_audio tool calls. -/

inductive RepeatMode
  | none
  | playlist
  | track
deriving DecidableEq, Repr

structure PlayerState where
  tracks : List UiTrack
  activeId : Option String
  activeSrc : Option String
  isPlaying : Bool
  loadingId : Option String
  repeatMode : RepeatMode
  didInit : Bool
  prevLen : Nat
  loadCalls : Nat
deriving DecidableEq, Repr

def initState : PlayerState :=
  { tracks := [], activeId := none, activeSrc := none, isPlaying := false,
    loadingId := none, repeatMode := .none, didInit := false, prevLen := 0,
    loadCalls := 0 }

/-- player.play with an item: the item becomes active and playback
starts. -/
def playItem (st : PlayerState) (id src : String) : PlayerState :=
  { st with activeId := some id, activeSrc := some src, isPlaying := true }

/-- player.setActiveItem: the item becomes active without playing. -/
def setActiveItem (st : PlayerState) (id src : String) : PlayerState :=
  { st with activeId := some id, activeSrc := some src }

/-- player.pause. -/
def pausePlayer (st : PlayerState) : PlayerState := { st with isPlaying := false }

/-- Outcome of the load_audio tool call seen by the UI: a data URL, or
any of the failure modes (isError result, missing dataUrl field, thrown
exception), which the catch and the early return treat alike. -/
inductive LoadOutcome
  | success (dataUrl : String)
  | failure
deriving DecidableEq, Repr

/-- The setTracks map on a successful load: store the data URL on the
track with the loaded id. -/
def srcUpd (id url : String) (t : UiTrack) : UiTrack :=
  if t.id == id then { t with src := some url } else t

/-- loadAndPlayTrack (lines 344-379): play the cached source immediately
when present; otherwise set the loading guard, call load_audio (counted
in loadCalls, its result given by the outcome parameter), store the
source on the track and play it on success, and clear the guard on every
exit path (the finally block). -/
def loadAndPlayTrack (st : PlayerState) (track : UiTrack) (outcome : LoadOutcome) :
    PlayerState :=
  match track.src with
  | some src => playItem st track.id src
  | none =>
    let st1 := { st with loadingId := some track.id, loadCalls := st.loadCalls + 1 }
    match outcome with
    | .failure => { st1 with loadingId := none }
    | .success url =>
      let st2 := { st1 with tracks := st1.tracks.map (srcUpd track.id url) }
      { playItem st2 track.id url with loadingId := none }

/-- handlePlayPause (Player component, lines 265-278): the current track
is the active one or the first; a loading current track blocks the
button; otherwise pause when playing, else load-and-play or play directly
depending on whether the source is cached. -/
def handlePlayPause (st : PlayerState) (outcome : LoadOutcome) : PlayerState :=
  let currentTrack := match st.tracks.find? (fun t => some t.id == st.activeId) with
    | some t => some t
    | none => st.tracks.head?
  match currentTrack with
  | none => if st.isPlaying then pausePlayer st else st
  | some ct =>
    if st.loadingId == some ct.id then st
    else if st.isPlaying then pausePlayer st
    else match ct.src with
      | none => loadAndPlayTrack st ct outcome
      | some src => playItem st ct.id src

/-- TrackListItem handleClick (lines 170-177): a loading row is disabled;
a click on the actively playing row pauses, any other click
loads-and-plays that row. -/
def handleTrackClick (st : PlayerState) (trackId : String) (outcome : LoadOutcome) :
    PlayerState :=
  match st.tracks.find? (fun t => t.id == trackId) with
  | none => st
  | some track =>
    if st.loadingId == some track.id then st
    else if st.activeId == some track.id && st.isPlaying then pausePlayer st
    else loadAndPlayTrack st track outcome

/-- Auto-advance decision of handleEnded (lines 417-429): nothing in
track-repeat mode (the loop flag on the audio element handles it);
otherwise the successor index when the ended track is not last, the first
index in playlist mode when it is last or the active id is not found, and
nothing otherwise. -/
def nextTrackIndex (repeatMode : RepeatMode) (tracks : List UiTrack)
    (activeId : Option String) : Option Nat :=
  if repeatMode = .track then Option.none
  else
    match tracks.findIdx? (fun t => some t.id == activeId) with
    | some i =>
      if i + 1 < tracks.length then some (i + 1)
      else if repeatMode = .playlist ∧ 0 < tracks.length then some 0
      else Option.none
    | none =>
      if repeatMode = .playlist ∧ 0 < tracks.length then some 0
      else Option.none

/-- The ended event: in track-repeat mode the handler returns at once and
the element keeps looping; otherwise the element has stopped (playback is
no longer running) and the handler may load-and-play the next track read
from the current queue. -/
def endedStep (st : PlayerState) (outcome : LoadOutcome) : PlayerState :=
  if st.repeatMode = .track then st
  else
    let st1 := pausePlayer st
    match nextTrackIndex st1.repeatMode st1.tracks st1.activeId with
    | some j =>
      match st1.tracks[j]? with
      | some t => loadAndPlayTrack st1 t outcome
      | none => st1
    | none => st1

/-- Track metadata as returned by the server in a tool result. -/
structure ServerTrackMeta where
  id : String
  filePath : String
  title : String
  artist : Option String
deriving DecidableEq, Repr

/-- parseTracksFromResult in the lazy app (lines 75-101): tracks are
created with a null src, to be loaded on demand. -/
def parseTracks (meta : List ServerTrackMeta) : List UiTrack :=
  meta.map fun m => ⟨m.id, Option.none, m.title, m.artist, m.filePath⟩

/-- First auto-select effect (lines 381-391): runs once as soon as the
queue is nonempty and selects the first track only when it already has a
source.  It never starts playback. -/
def autoSelectFirst (st : PlayerState) : PlayerState :=
  if 0 < st.tracks.length ∧ st.didInit = false then
    let st' := { st with didInit := true }
    match st.tracks.head? with
    | some t =>
      match t.src with
      | some s => setActiveItem st' t.id s
      | none => st'
    | none => st'
  else st

/-- Second auto-select effect (lines 393-402): when more tracks are
present than at the previous render and nothing is active, select the
first newly appended track, only when it already has a source.  It never
starts playback. -/
def autoSelectNew (st : PlayerState) : PlayerState :=
  if st.prevLen < st.tracks.length ∧ st.activeId = Option.none then
    match st.tracks[st.prevLen]? with
    | some t =>
      match t.src with
      | some s => setActiveItem st t.id s
      | none => st
    | none => st
  else st

/-- Both auto-select effects in order, then the previous-length ref
update that closes the second effect. -/
def autoSelectEffects (st : PlayerState) : PlayerState :=
  let st2 := autoSelectNew (autoSelectFirst st)
  { st2 with prevLen := st2.tracks.length }

/-- ontoolresult (lines 117-131) followed by the auto-select effects:
merge a nonempty parsed track list into the queue, then run the
effects. -/
def toolResultStep (st : PlayerState) (meta : List ServerTrackMeta) : PlayerState :=
  let newTracks := parseTracks meta
  let st1 :=
    if 0 < newTracks.length then { st with tracks := mergeTracks st.tracks newTracks }
    else st
  autoSelectEffects st1

/-- Repeat-mode cycling on user toggle (lines 335-341). -/
def cycleRepeatMode : RepeatMode → RepeatMode
  | .none => .playlist
  | .playlist => .track
  | .track => .none

/-- Events driving the UI session. -/
inductive UiEvent
  | toolResult (meta : List ServerTrackMeta)
  | playPause (outcome : LoadOutcome)
  | clickTrack (trackId : String) (outcome : LoadOutcome)
  | ended (outcome : LoadOutcome)
  | toggleRepeat
deriving DecidableEq, Repr

def step (st : PlayerState) : UiEvent → PlayerState
  | .toolResult meta => toolResultStep st meta
  | .playPause o => handlePlayPause st o
  | .clickTrack id o => handleTrackClick st id o
  | .ended o => endedStep st o
  | .toggleRepeat => { st with repeatMode := cycleRepeatMode st.repeatMode }

/-- State reached after a list of events from a fresh session. -/
def run (evs : List UiEvent) : PlayerState := evs.foldl step initState

/-- Composite auto-select of the eager variant (lines 728-742): the
initial effect selects the first track unconditionally, once; otherwise
the second effect selects the first newly appended track when nothing is
active.  The returned track, if any, is passed to setActiveItem only. -/
def eagerAutoSelect (tracks : List UiTrack) (prevLen : Nat)
    (activeId : Option String) (didInit : Bool) : Option UiTrack :=
  if 0 < tracks.length ∧ didInit = false then tracks.head?
  else if prevLen < tracks.length ∧ activeId = Option.none then tracks[prevLen]?
  else Option.none

/-! ## Claim C5: auto-advance policy -/

theorem endedStep_eq (st : PlayerState) (o : LoadOutcome)
    (h : ¬ st.repeatMode = .track) :
    endedStep st o =
      match nextTrackIndex st.repeatMode st.tracks st.activeId with
      | some j =>
        match st.tracks[j]? with
        | some t => loadAndPlayTrack (pausePlayer st) t o
        | none => pausePlayer st
      | none => pausePlayer st := by
  rw [endedStep, if_neg h]
  rfl

/-- C5: on the ended event with the active track at index i, track-repeat
mode does nothing (looping is delegated to the loop flag); otherwise a
non-last track advances to index i plus one; a last track wraps to index
zero in playlist mode; and in repeat-off mode the handler only observes
the stop, playing nothing and activating nothing new. -/
theorem auto_advance_policy (st : PlayerState) (o : LoadOutcome) (i : Nat)
    (hIdx : st.tracks.findIdx? (fun t => some t.id == st.activeId) = some i) :
    (st.repeatMode = .track → endedStep st o = st) ∧
    (¬ st.repeatMode = .track → i + 1 < st.tracks.length → ∀ t,
      st.tracks[i + 1]? = some t →
      endedStep st o = loadAndPlayTrack (pausePlayer st) t o) ∧
    (st.repeatMode = .playlist → i + 1 = st.tracks.length → ∀ t0,
      st.tracks[0]? = some t0 →
      endedStep st o = loadAndPlayTrack (pausePlayer st) t0 o) ∧
    (st.repeatMode = .none → i + 1 = st.tracks.length →
      endedStep st o = pausePlayer st) := by
  refine ⟨fun h => by rw [endedStep, if_pos h], ?_, ?_, ?_⟩
  · intro hne hlt t ht
    have hnext : nextTrackIndex st.repeatMode st.tracks st.activeId = some (i + 1) := by
      rw [nextTrackIndex, if_neg hne, hIdx]
      simp [hlt]
    rw [endedStep_eq st o hne, hnext]
    dsimp only
    rw [ht]
  · intro hmode hlast t0 ht0
    have hne : ¬ st.repeatMode = .track := by rw [hmode]; intro h; cases h
    have hnext : nextTrackIndex st.repeatMode st.tracks st.activeId = some 0 := by
      rw [nextTrackIndex, if_neg hne, hIdx]
      have hnlt : ¬ i + 1 < st.tracks.length := by omega
      have hpos : 0 < st.tracks.length := by omega
      simp [hnlt, hmode, hpos]
    rw [endedStep_eq st o hne, hnext]
    dsimp only
    rw [ht0]
  · intro hmode hlast
    have hne : ¬ st.repeatMode = .track := by rw [hmode]; intro h; cases h
    have hnext : nextTrackIndex st.repeatMode st.tracks st.activeId = Option.none := by
      rw [nextTrackIndex, if_neg hne, hIdx]
      have h1 : ¬ i + 1 < st.tracks.length := by omega
      have h2 : ¬ st.repeatMode = .playlist := by rw [hmode]; intro h; cases h
      simp [h1, h2]
    rw [endedStep_eq st o hne, hnext]

/-- Witness for C5: queue of two loaded tracks, playlist mode, the last
track ends, and the player wraps around and plays the first. -/
theorem auto_advance_policy_witness :
    endedStep
        { tracks := [⟨"a", some "sa", "A", Option.none, "/a"⟩,
            ⟨"b", some "sb", "B", Option.none, "/b"⟩],
          activeId := some "b", activeSrc := some "sb", isPlaying := true,
          loadingId := Option.none, repeatMode := .playlist, didInit := true,
          prevLen := 2, loadCalls := 0 } .failure =
      loadAndPlayTrack
        (pausePlayer
          { tracks := [⟨"a", some "sa", "A", Option.none, "/a"⟩,
              ⟨"b", some "sb", "B", Option.none, "/b"⟩],
            activeId := some "b", activeSrc := some "sb", isPlaying := true,
            loadingId := Option.none, repeatMode := .playlist, didInit := true,
            prevLen := 2, loadCalls := 0 })
        ⟨"a", some "sa", "A", Option.none, "/a"⟩ .failure ∧
    (endedStep
        { tracks := [⟨"a", some "sa", "A", Option.none, "/a"⟩,
            ⟨"b", some "sb", "B", Option.none, "/b"⟩],
          activeId := some "b", activeSrc := some "sb", isPlaying := true,
          loadingId := Option.none, repeatMode := .playlist, didInit := true,
          prevLen := 2, loadCalls := 0 } .failure).activeId = some "a" := by
  refine ⟨(auto_advance_policy _ .failure 1 (by decide)).2.2.1 rfl (by decide)
    ⟨"a", some "sa", "A", Option.none, "/a"⟩ (by decide), by decide⟩

/-! ## Claim C6: playing requires a resolved source -/

theorem mem_of_head?Eq {α : Type} {l : List α} {a : α} (h : l.head? = some a) :
    a ∈ l := by
  cases l with
  | nil => cases h
  | cons b bs =>
    have hb : b = a := by simpa using h
    rw [← hb]
    exact List.mem_cons_self b bs

/-- While playing, the active item carries a source and the queue holds a
track with that id and that source. -/
def SrcInvariant (st : PlayerState) : Prop :=
  st.isPlaying = true →
    ∃ id src, st.activeId = some id ∧ st.activeSrc = some src ∧
      ∃ t ∈ st.tracks, t.id = id ∧ t.src = some src

theorem playItem_srcInv {st : PlayerState} {t : UiTrack} {s : String}
    (hmem : t ∈ st.tracks) (hsrc : t.src = some s) :
    SrcInvariant (playItem st t.id s) :=
  fun _ => ⟨t.id, s, rfl, rfl, t, hmem, rfl, hsrc⟩

theorem pause_srcInv (st : PlayerState) : SrcInvariant (pausePlayer st) := by
  intro hp
  exact absurd hp (by simp [pausePlayer])

theorem loadAndPlayTrack_srcInv {st : PlayerState} {tr : UiTrack} {o : LoadOutcome}
    (hmem : tr ∈ st.tracks) (hinv : SrcInvariant st) :
    SrcInvariant (loadAndPlayTrack st tr o) := by
  cases hsrc : tr.src with
  | some s =>
    rw [loadAndPlayTrack, hsrc]
    exact playItem_srcInv hmem hsrc
  | none =>
    rw [loadAndPlayTrack, hsrc]
    cases o with
    | failure =>
      intro hp
      rcases hinv hp with ⟨id, src, h1, h2, t, htm, h3, h4⟩
      exact ⟨id, src, h1, h2, t, htm, h3, h4⟩
    | success url =>
      intro _
      refine ⟨tr.id, url, rfl, rfl, srcUpd tr.id url tr,
        List.mem_map_of_mem _ hmem, ?_, ?_⟩
      · simp [srcUpd]
      · simp [srcUpd]

theorem handlePlayPause_srcInv (st : PlayerState) (o : LoadOutcome)
    (hinv : SrcInvariant st) : SrcInvariant (handlePlayPause st o) := by
  rw [handlePlayPause]
  cases hfind : st.tracks.find? (fun t => some t.id == st.activeId) with
  | some ct =>
    have hmem := List.mem_of_find?_eq_some hfind
    dsimp only
    split
    · exact hinv
    · split
      · exact pause_srcInv st
      · cases hsrc : ct.src with
        | none => exact loadAndPlayTrack_srcInv hmem hinv
        | some s => exact playItem_srcInv hmem hsrc
  | none =>
    dsimp only
    cases hhead : st.tracks.head? with
    | none =>
      dsimp only
      split
      · exact pause_srcInv st
      · exact hinv
    | some t =>
      have hmem := mem_of_head?Eq hhead
      dsimp only
      split
      · exact hinv
      · split
        · exact pause_srcInv st
        · cases hsrc : t.src with
          | none => exact loadAndPlayTrack_srcInv hmem hinv
          | some s => exact playItem_srcInv hmem hsrc

theorem handleTrackClick_srcInv (st : PlayerState) (trackId : String)
    (o : LoadOutcome) (hinv : SrcInvariant st) :
    SrcInvariant (handleTrackClick st trackId o) := by
  rw [handleTrackClick]
  cases hfind : st.tracks.find? (fun t => t.id == trackId) with
  | none => exact hinv
  | some tr =>
    have hmem := List.mem_of_find?_eq_some hfind
    dsimp only
    split
    · exact hinv
    · split
      · exact pause_srcInv st
      · exact loadAndPlayTrack_srcInv hmem hinv

theorem endedStep_srcInv (st : PlayerState) (o : LoadOutcome)
    (hinv : SrcInvariant st) : SrcInvariant (endedStep st o) := by
  rw [endedStep]
  split
  · exact hinv
  · dsimp only [pausePlayer]
    cases hnext : nextTrackIndex st.repeatMode st.tracks st.activeId with
    | none => exact pause_srcInv st
    | some j =>
      dsimp only
      cases hget : st.tracks[j]? with
      | none => exact pause_srcInv st
      | some t =>
        exact @loadAndPlayTrack_srcInv (pausePlayer st) t o
          (List.getElem?_mem hget) (pause_srcInv st)

theorem autoSelectFirst_srcInv (st : PlayerState) (hinv : SrcInvariant st) :
    SrcInvariant (autoSelectFirst st) := by
  rw [autoSelectFirst]
  split
  · dsimp only
    cases hhead : st.tracks.head? with
    | none => exact fun hp => hinv hp
    | some t =>
      have hmem := mem_of_head?Eq hhead
      dsimp only
      cases hsrc : t.src with
      | none => exact fun hp => hinv hp
      | some s =>
        intro hp
        exact ⟨t.id, s, rfl, rfl, t, hmem, rfl, hsrc⟩
  · exact hinv

theorem autoSelectNew_srcInv (st : PlayerState) (hinv : SrcInvariant st) :
    SrcInvariant (autoSelectNew st) := by
  rw [autoSelectNew]
  split
  · cases hget : st.tracks[st.prevLen]? with
    | none => exact hinv
    | some t =>
      have hmem := List.getElem?_mem hget
      dsimp only
      cases hsrc : t.src with
      | none => exact hinv
      | some s =>
        intro hp
        exact ⟨t.id, s, rfl, rfl, t, hmem, rfl, hsrc⟩
  · exact hinv

theorem autoSelectEffects_srcInv (st : PlayerState) (hinv : SrcInvariant st) :
    SrcInvariant (autoSelectEffects st) := by
  intro hp
  exact autoSelectNew_srcInv (autoSelectFirst st) (autoSelectFirst_srcInv st hinv) hp

theorem toolResultStep_srcInv (st : PlayerState) (meta : List ServerTrackMeta)
    (hinv : SrcInvariant st) : SrcInvariant (toolResultStep st meta) := by
  rw [toolResultStep]
  apply autoSelectEffects_srcInv
  split
  · intro hp
    rcases hinv hp with ⟨id, src, a1, a2, t, htm, a3, a4⟩
    exact ⟨id, src, a1, a2, t, List.mem_append_left _ htm, a3, a4⟩
  · exact hinv

theorem step_srcInv (st : PlayerState) (e : UiEvent) (hinv : SrcInvariant st) :
    SrcInvariant (step st e) := by
  cases e with
  | toolResult meta => exact toolResultStep_srcInv st meta hinv
  | playPause o => exact handlePlayPause_srcInv st o hinv
  | clickTrack id o => exact handleTrackClick_srcInv st id o hinv
  | ended o => exact endedStep_srcInv st o hinv
  | toggleRepeat => exact fun hp => hinv hp

theorem foldl_srcInv : ∀ (evs : List UiEvent) (st : PlayerState),
    SrcInvariant st → SrcInvariant (evs.foldl step st) := by
  intro evs
  induction evs with
  | nil => exact fun st h => h
  | cons e evs ih => exact fun st h => ih (step st e) (step_srcInv st e h)

/-- C6: in every reachable state of the playback machine, playing implies
the active item has a source that is stored on a queue track with the
active id; a play request for an unloaded track goes through the load
path and playback starts only with the loaded source stored. -/
theorem playing_requires_source (evs : List UiEvent)
    (h : (run evs).isPlaying = true) :
    ∃ id src, (run evs).activeId = some id ∧ (run evs).activeSrc = some src ∧
      ∃ t ∈ (run evs).tracks, t.id = id ∧ t.src = some src :=
  foldl_srcInv evs initState (fun hp => absurd hp (by simp [initState])) h

/-- Witness for C6: one track arrives, the play button is pressed, the
lazy load succeeds, and the machine is playing with the loaded source
stored on the active track. -/
theorem playing_requires_source_witness :
    (run [UiEvent.toolResult [⟨"t1", "/a.mp3", "A", Option.none⟩],
        UiEvent.playPause (.success "data:audio/mpeg;base64,QQ==")]).isPlaying
      = true ∧
    ∃ id src,
      (run [UiEvent.toolResult [⟨"t1", "/a.mp3", "A", Option.none⟩],
          UiEvent.playPause (.success "data:audio/mpeg;base64,QQ==")]).activeId
        = some id ∧
      (run [UiEvent.toolResult [⟨"t1", "/a.mp3", "A", Option.none⟩],
          UiEvent.playPause (.success "data:audio/mpeg;base64,QQ==")]).activeSrc
        = some src ∧
      ∃ t ∈ (run [UiEvent.toolResult [⟨"t1", "/a.mp3", "A", Option.none⟩],
          UiEvent.playPause (.success "data:audio/mpeg;base64,QQ==")]).tracks,
        t.id = id ∧ t.src = some src :=
  ⟨by decide, playing_requires_source _ (by decide)⟩

/-! ## Claim C7: lazy-load idempotence -/

theorem loadAndPlayTrack_tracks_shape (st : PlayerState) (tr : UiTrack)
    (o : LoadOutcome) :
    (loadAndPlayTrack st tr o).tracks = st.tracks ∨
    ∃ id url, (loadAndPlayTrack st tr o).tracks = st.tracks.map (srcUpd id url) := by
  cases hsrc : tr.src with
  | some s =>
    rw [loadAndPlayTrack, hsrc]
    exact Or.inl rfl
  | none =>
    rw [loadAndPlayTrack, hsrc]
    cases o with
    | failure => exact Or.inl rfl
    | success url => exact Or.inr ⟨tr.id, url, rfl⟩

theorem handlePlayPause_tracks_shape (st : PlayerState) (o : LoadOutcome) :
    (handlePlayPause st o).tracks = st.tracks ∨
    ∃ id url, (handlePlayPause st o).tracks = st.tracks.map (srcUpd id url) := by
  rw [handlePlayPause]
  cases hfind : st.tracks.find? (fun t => some t.id == st.activeId) with
  | some ct =>
    dsimp only
    split
    · exact Or.inl rfl
    · split
      · exact Or.inl rfl
      · cases hsrc : ct.src with
        | none => exact loadAndPlayTrack_tracks_shape st ct o
        | some s => exact Or.inl rfl
  | none =>
    dsimp only
    cases hhead : st.tracks.head? with
    | none =>
      dsimp only
      split
      · exact Or.inl rfl
      · exact Or.inl rfl
    | some t =>
      dsimp only
      split
      · exact Or.inl rfl
      · split
        · exact Or.inl rfl
        · cases hsrc : t.src with
          | none => exact loadAndPlayTrack_tracks_shape st t o
          | some s => exact Or.inl rfl

theorem handleTrackClick_tracks_shape (st : PlayerState) (trackId : String)
    (o : LoadOutcome) :
    (handleTrackClick st trackId o).tracks = st.tracks ∨
    ∃ id url, (handleTrackClick st trackId o).tracks = st.tracks.map (srcUpd id url) := by
  rw [handleTrackClick]
  cases hfind : st.tracks.find? (fun t => t.id == trackId) with
  | none => exact Or.inl rfl
  | some tr =>
    dsimp only
    split
    · exact Or.inl rfl
    · split
      · exact Or.inl rfl
      · exact loadAndPlayTrack_tracks_shape st tr o

theorem endedStep_tracks_shape (st : PlayerState) (o : LoadOutcome) :
    (endedStep st o).tracks = st.tracks ∨
    ∃ id url, (endedStep st o).tracks = st.tracks.map (srcUpd id url) := by
  rw [endedStep]
  split
  · exact Or.inl rfl
  · dsimp only [pausePlayer]
    cases hnext : nextTrackIndex st.repeatMode st.tracks st.activeId with
    | none => exact Or.inl rfl
    | some j =>
      dsimp only
      cases hget : st.tracks[j]? with
      | none => exact Or.inl rfl
      | some t => exact loadAndPlayTrack_tracks_shape (pausePlayer st) t o

theorem autoSelectFirst_tracks (st : PlayerState) :
    (autoSelectFirst st).tracks = st.tracks := by
  rw [autoSelectFirst]
  split
  · dsimp only
    cases st.tracks.head? with
    | none => rfl
    | some t =>
      dsimp only
      cases t.src with
      | none => rfl
      | some s => rfl
  · rfl

theorem autoSelectNew_tracks (st : PlayerState) :
    (autoSelectNew st).tracks = st.tracks := by
  rw [autoSelectNew]
  split
  · cases st.tracks[st.prevLen]? with
    | none => rfl
    | some t =>
      dsimp only
      cases t.src with
      | none => rfl
      | some s => rfl
  · rfl

theorem autoSelectEffects_tracks (st : PlayerState) :
    (autoSelectEffects st).tracks = st.tracks := by
  show (autoSelectNew (autoSelectFirst st)).tracks = st.tracks
  rw [autoSelectNew_tracks, autoSelectFirst_tracks]

theorem step_tracks_shape (st : PlayerState) (e : UiEvent) :
    (step st e).tracks = st.tracks ∨
    (∃ id url, (step st e).tracks = st.tracks.map (srcUpd id url)) ∨
    (∃ new, (step st e).tracks = st.tracks ++ new) := by
  cases e with
  | toolResult meta =>
    refine Or.inr (Or.inr ?_)
    have htr : (step st (UiEvent.toolResult meta)).tracks =
        (if 0 < (parseTracks meta).length
          then { st with tracks := mergeTracks st.tracks (parseTracks meta) }
          else st).tracks := by
      show (toolResultStep st meta).tracks = _
      rw [toolResultStep]
      exact autoSelectEffects_tracks _
    rw [htr]
    split
    · exact ⟨_, rfl⟩
    · exact ⟨[], (List.append_nil _).symm⟩
  | playPause o =>
    rcases handlePlayPause_tracks_shape st o with h | ⟨id, url, h⟩
    · exact Or.inl h
    · exact Or.inr (Or.inl ⟨id, url, h⟩)
  | clickTrack trackId o =>
    rcases handleTrackClick_tracks_shape st trackId o with h | ⟨id, url, h⟩
    · exact Or.inl h
    · exact Or.inr (Or.inl ⟨id, url, h⟩)
  | ended o =>
    rcases endedStep_tracks_shape st o with h | ⟨id, url, h⟩
    · exact Or.inl h
    · exact Or.inr (Or.inl ⟨id, url, h⟩)
  | toggleRepeat => exact Or.inl rfl

theorem srcUpd_keeps_isSome {t : UiTrack} {s : String} (id url : String)
    (hsrc : t.src = some s) :
    (srcUpd id url t).id = t.id ∧ (srcUpd id url t).src.isSome = true := by
  rw [srcUpd]
  split
  · exact ⟨rfl, rfl⟩
  · exact ⟨rfl, by rw [hsrc]; rfl⟩

theorem find?_map_srcUpd {l : List UiTrack} {tid url : String} {t' : UiTrack}
    (hfind : (l.map (srcUpd tid url)).find? (fun x => x.id == tid) = some t') :
    t'.src = some url := by
  have hp : (t'.id == tid) = true := by
    have h := List.find?_some hfind
    exact h
  have hmem : t' ∈ l.map (srcUpd tid url) := List.mem_of_find?_eq_some hfind
  rcases List.mem_map.mp hmem with ⟨x, _, hxe⟩
  by_cases hid : (x.id == tid) = true
  · rw [← hxe]
    simp [srcUpd, hid]
  · exfalso
    rw [← hxe] at hp
    rw [srcUpd, if_neg hid] at hp
    exact hid hp

/-- C7: a load-and-play request for a track with a cached source plays it
at once without any load_audio call and without touching the queue; after
a successful first load, the queue holds the loaded source under the
track id, a second request for that track hits the cache (the total call
count stays one and the source equals the first resolved value); and
under every event a track source, once set, never returns to null. -/
theorem lazy_load_idempotent :
    (∀ (st : PlayerState) (t : UiTrack) (s : String) (o : LoadOutcome),
      t.src = some s →
      loadAndPlayTrack st t o = playItem st t.id s ∧
      (loadAndPlayTrack st t o).loadCalls = st.loadCalls ∧
      (loadAndPlayTrack st t o).tracks = st.tracks) ∧
    (∀ (st : PlayerState) (t : UiTrack) (url : String) (o₂ : LoadOutcome),
      t.src = none → t ∈ st.tracks →
      ∃ t', (loadAndPlayTrack st t (.success url)).tracks.find?
          (fun x => x.id == t.id) = some t' ∧
        t'.src = some url ∧
        (loadAndPlayTrack st t (.success url)).loadCalls = st.loadCalls + 1 ∧
        loadAndPlayTrack (loadAndPlayTrack st t (.success url)) t' o₂ =
          playItem (loadAndPlayTrack st t (.success url)) t'.id url ∧
        (loadAndPlayTrack (loadAndPlayTrack st t (.success url)) t' o₂).loadCalls
          = st.loadCalls + 1) ∧
    (∀ (st : PlayerState) (e : UiEvent) (i : Nat) (t : UiTrack) (s : String),
      st.tracks[i]? = some t → t.src = some s →
      ∃ t', (step st e).tracks[i]? = some t' ∧ t'.id = t.id ∧
        t'.src.isSome = true) := by
  refine ⟨?_, ?_, ?_⟩
  · intro st t s o hsrc
    rw [loadAndPlayTrack, hsrc]
    exact ⟨rfl, rfl, rfl⟩
  · intro st t url o₂ hsrc hmem
    have htracks : (loadAndPlayTrack st t (.success url)).tracks
        = st.tracks.map (srcUpd t.id url) := by
      rw [loadAndPlayTrack, hsrc]
      rfl
    have hex : ∃ t', (loadAndPlayTrack st t (.success url)).tracks.find?
        (fun x => x.id == t.id) = some t' := by
      apply Option.isSome_iff_exists.mp
      apply List.find?_isSome.mpr
      refine ⟨srcUpd t.id url t, ?_, ?_⟩
      · rw [htracks]
        exact List.mem_map_of_mem _ hmem
      · simp [srcUpd]
    rcases hex with ⟨t', hfind⟩
    have ht'src : t'.src = some url := by
      apply @find?_map_srcUpd st.tracks t.id url t'
      rw [← htracks]
      exact hfind
    have hcalls : (loadAndPlayTrack st t (.success url)).loadCalls
        = st.loadCalls + 1 := by
      rw [loadAndPlayTrack, hsrc]
      rfl
    refine ⟨t', hfind, ht'src, hcalls, ?_, ?_⟩
    · rw [loadAndPlayTrack, ht'src]
    · rw [loadAndPlayTrack, ht'src]
      exact hcalls
  · intro st e i t s hget hsrc
    rcases step_tracks_shape st e with h | ⟨id, url, h⟩ | ⟨new, h⟩
    · exact ⟨t, by rw [h]; exact hget, rfl, by rw [hsrc]; rfl⟩
    · refine ⟨srcUpd id url t, ?_, ?_⟩
      · rw [h]
        simp [List.getElem?_map, hget]
      · exact srcUpd_keeps_isSome id url hsrc
    · refine ⟨t, ?_, rfl, by rw [hsrc]; rfl⟩
      rw [h]
      have hi : i < st.tracks.length := (List.getElem?_eq_some.mp hget).1
      rw [List.getElem?_append, if_pos hi]
      exact hget

/-- Witness for C7: a fresh track is loaded twice; the call count after
both requests is one and the stored source is the first data URL. -/
theorem lazy_load_idempotent_witness :
    loadAndPlayTrack
        { tracks := [⟨"a", some "sa", "A", Option.none, "/a"⟩],
          activeId := Option.none, activeSrc := Option.none, isPlaying := false,
          loadingId := Option.none, repeatMode := .none, didInit := true,
          prevLen := 1, loadCalls := 0 }
        ⟨"a", some "sa", "A", Option.none, "/a"⟩ .failure =
      playItem
        { tracks := [⟨"a", some "sa", "A", Option.none, "/a"⟩],
          activeId := Option.none, activeSrc := Option.none, isPlaying := false,
          loadingId := Option.none, repeatMode := .none, didInit := true,
          prevLen := 1, loadCalls := 0 } "a" "sa" ∧
    ∃ t', (loadAndPlayTrack
        { tracks := [⟨"b", Option.none, "B", Option.none, "/b"⟩],
          activeId := Option.none, activeSrc := Option.none, isPlaying := false,
          loadingId := Option.none, repeatMode := .none, didInit := true,
          prevLen := 1, loadCalls := 0 }
        ⟨"b", Option.none, "B", Option.none, "/b"⟩ (.success "du")).tracks.find?
          (fun x => x.id == "b") = some t' ∧
      t'.src = some "du" ∧
      (loadAndPlayTrack (loadAndPlayTrack
        { tracks := [⟨"b", Option.none, "B", Option.none, "/b"⟩],
          activeId := Option.none, activeSrc := Option.none, isPlaying := false,
          loadingId := Option.none, repeatMode := .none, didInit := true,
          prevLen := 1, loadCalls := 0 }
        ⟨"b", Option.none, "B", Option.none, "/b"⟩ (.success "du")) t' .failure).loadCalls
        = 1 := by
  constructor
  · exact (lazy_load_idempotent.1 _ ⟨"a", some "sa", "A", Option.none, "/a"⟩
      "sa" .failure rfl).1
  · rcases lazy_load_idempotent.2.1
      { tracks := [⟨"b", Option.none, "B", Option.none, "/b"⟩],
        activeId := Option.none, activeSrc := Option.none, isPlaying := false,
        loadingId := Option.none, repeatMode := .none, didInit := true,
        prevLen := 1, loadCalls := 0 }
      ⟨"b", Option.none, "B", Option.none, "/b"⟩ "du" .failure rfl
      (by decide) with ⟨t', h1, h2, h3, h4, h5⟩
    exact ⟨t', h1, h2, h5⟩

/-! ## Claim C8: load failure atomicity and guard release -/

/-- C8: for a track with no cached source, any load attempt ends with a
null loadingId (success or failure), and a failed attempt leaves the
queue, the source, the playing flag and the active item untouched. -/
theorem load_guard_released (st : PlayerState) (t : UiTrack) (o : LoadOutcome)
    (h : t.src = none) :
    (loadAndPlayTrack st t o).loadingId = none ∧
    (loadAndPlayTrack st t .failure).tracks = st.tracks ∧
    (loadAndPlayTrack st t .failure).isPlaying = st.isPlaying ∧
    (loadAndPlayTrack st t .failure).activeId = st.activeId ∧
    (loadAndPlayTrack st t .failure).activeSrc = st.activeSrc := by
  refine ⟨?_, ?_, ?_, ?_, ?_⟩
  · rw [loadAndPlayTrack, h]
    cases o with
    | failure => rfl
    | success url => rfl
  · rw [loadAndPlayTrack, h]
  · rw [loadAndPlayTrack, h]
  · rw [loadAndPlayTrack, h]
  · rw [loadAndPlayTrack, h]

/-- Witness for C8, on a concrete unloaded track with both outcomes. -/
theorem load_guard_released_witness :
    (loadAndPlayTrack
        { tracks := [⟨"c", Option.none, "C", Option.none, "/c"⟩],
          activeId := Option.none, activeSrc := Option.none, isPlaying := false,
          loadingId := Option.none, repeatMode := .none, didInit := true,
          prevLen := 1, loadCalls := 0 }
        ⟨"c", Option.none, "C", Option.none, "/c"⟩ (.success "du")).loadingId
      = none ∧
    (loadAndPlayTrack
        { tracks := [⟨"c", Option.none, "C", Option.none, "/c"⟩],
          activeId := Option.none, activeSrc := Option.none, isPlaying := false,
          loadingId := Option.none, repeatMode := .none, didInit := true,
          prevLen := 1, loadCalls := 0 }
        ⟨"c", Option.none, "C", Option.none, "/c"⟩ .failure).isPlaying = false := by
  constructor
  · exact (load_guard_released _ ⟨"c", Option.none, "C", Option.none, "/c"⟩
      (.success "du") rfl).1
  · exact (load_guard_released _ ⟨"c", Option.none, "C", Option.none, "/c"⟩
      .failure rfl).2.2.1

/-! ## Claim C9: auto-select tie-break -/

theorem parseTracks_src_none {meta : List ServerTrackMeta} {t : UiTrack}
    (h : t ∈ parseTracks meta) : t.src = Option.none := by
  rcases List.mem_map.mp h with ⟨m, _, he⟩
  rw [← he]

theorem autoSelectFirst_didInit_true (s : PlayerState) (hlen : 0 < s.tracks.length) :
    (autoSelectFirst s).didInit = true := by
  rw [autoSelectFirst]
  split
  · dsimp only
    cases s.tracks.head? with
    | none => rfl
    | some t =>
      dsimp only
      cases t.src with
      | none => rfl
      | some u => rfl
  · rename_i hg
    cases hdi : s.didInit with
    | true => rfl
    | false => exact absurd ⟨hlen, hdi⟩ hg

theorem autoSelectNew_didInit (s : PlayerState) :
    (autoSelectNew s).didInit = s.didInit := by
  rw [autoSelectNew]
  split
  · cases s.tracks[s.prevLen]? with
    | none => rfl
    | some t =>
      dsimp only
      cases t.src with
      | none => rfl
      | some u => rfl
  · rfl

/-- Structural facts holding in every reachable state: the init flag is
still unset only while the queue is empty, and the previous-length ref
tracks the queue length. -/
def StructInvariant (st : PlayerState) : Prop :=
  (st.didInit = false → st.tracks = []) ∧ st.prevLen = st.tracks.length

theorem autoSelectEffects_struct (s : PlayerState) :
    StructInvariant (autoSelectEffects s) := by
  constructor
  · intro hdi
    by_cases hlen : 0 < s.tracks.length
    · exfalso
      have h2 : (autoSelectEffects s).didInit = true := by
        show (autoSelectNew (autoSelectFirst s)).didInit = true
        rw [autoSelectNew_didInit]
        exact autoSelectFirst_didInit_true s hlen
      rw [hdi] at h2
      cases h2
    · have hnil : s.tracks = [] := by
        cases hn : s.tracks with
        | nil => rfl
        | cons a l => rw [hn] at hlen; simp at hlen
      show (autoSelectNew (autoSelectFirst s)).tracks = []
      rw [autoSelectNew_tracks, autoSelectFirst_tracks, hnil]
  · rfl

theorem struct_of_frame {a b : PlayerState} (h : StructInvariant a)
    (hd : b.didInit = a.didInit) (hp : b.prevLen = a.prevLen)
    (ht : b.tracks.length = a.tracks.length) : StructInvariant b := by
  constructor
  · intro hdi
    rw [hd] at hdi
    have hnil := h.1 hdi
    have hlen : b.tracks.length = 0 := by rw [ht, hnil]; rfl
    exact List.length_eq_zero.mp hlen
  · rw [hp, ht]
    exact h.2

theorem loadAndPlayTrack_frame (st : PlayerState) (tr : UiTrack) (o : LoadOutcome) :
    (loadAndPlayTrack st tr o).didInit = st.didInit ∧
    (loadAndPlayTrack st tr o).prevLen = st.prevLen ∧
    (loadAndPlayTrack st tr o).tracks.length = st.tracks.length := by
  cases hsrc : tr.src with
  | some s =>
    rw [loadAndPlayTrack, hsrc]
    exact ⟨rfl, rfl, rfl⟩
  | none =>
    rw [loadAndPlayTrack, hsrc]
    cases o with
    | failure => exact ⟨rfl, rfl, rfl⟩
    | success url => exact ⟨rfl, rfl, by simp [playItem]⟩

theorem handlePlayPause_frame (st : PlayerState) (o : LoadOutcome) :
    (handlePlayPause st o).didInit = st.didInit ∧
    (handlePlayPause st o).prevLen = st.prevLen ∧
    (handlePlayPause st o).tracks.length = st.tracks.length := by
  rw [handlePlayPause]
  cases hfind : st.tracks.find? (fun t => some t.id == st.activeId) with
  | some ct =>
    dsimp only
    split
    · exact ⟨rfl, rfl, rfl⟩
    · split
      · exact ⟨rfl, rfl, rfl⟩
      · cases hsrc : ct.src with
        | none => exact loadAndPlayTrack_frame st ct o
        | some s => exact ⟨rfl, rfl, rfl⟩
  | none =>
    dsimp only
    cases hhead : st.tracks.head? with
    | none =>
      dsimp only
      split
      · exact ⟨rfl, rfl, rfl⟩
      · exact ⟨rfl, rfl, rfl⟩
    | some t =>
      dsimp only
      split
      · exact ⟨rfl, rfl, rfl⟩
      · split
        · exact ⟨rfl, rfl, rfl⟩
        · cases hsrc : t.src with
          | none => exact loadAndPlayTrack_frame st t o
          | some s => exact ⟨rfl, rfl, rfl⟩

theorem handleTrackClick_frame (st : PlayerState) (trackId : String)
    (o : LoadOutcome) :
    (handleTrackClick st trackId o).didInit = st.didInit ∧
    (handleTrackClick st trackId o).prevLen = st.prevLen ∧
    (handleTrackClick st trackId o).tracks.length = st.tracks.length := by
  rw [handleTrackClick]
  cases hfind : st.tracks.find? (fun t => t.id == trackId) with
  | none => exact ⟨rfl, rfl, rfl⟩
  | some tr =>
    dsimp only
    split
    · exact ⟨rfl, rfl, rfl⟩
    · split
      · exact ⟨rfl, rfl, rfl⟩
      · exact loadAndPlayTrack_frame st tr o

theorem endedStep_frame (st : PlayerState) (o : LoadOutcome) :
    (endedStep st o).didInit = st.didInit ∧
    (endedStep st o).prevLen = st.prevLen ∧
    (endedStep st o).tracks.length = st.tracks.length := by
  rw [endedStep]
  split
  · exact ⟨rfl, rfl, rfl⟩
  · dsimp only [pausePlayer]
    cases hnext : nextTrackIndex st.repeatMode st.tracks st.activeId with
    | none => exact ⟨rfl, rfl, rfl⟩
    | some j =>
      dsimp only
      cases hget : st.tracks[j]? with
      | none => exact ⟨rfl, rfl, rfl⟩
      | some t => exact loadAndPlayTrack_frame (pausePlayer st) t o

theorem step_struct (st : PlayerState) (e : UiEvent) (h : StructInvariant st) :
    StructInvariant (step st e) := by
  cases e with
  | toolResult meta => exact autoSelectEffects_struct _
  | playPause o =>
    have hf := handlePlayPause_frame st o
    exact struct_of_frame h hf.1 hf.2.1 hf.2.2
  | clickTrack trackId o =>
    have hf := handleTrackClick_frame st trackId o
    exact struct_of_frame h hf.1 hf.2.1 hf.2.2
  | ended o =>
    have hf := endedStep_frame st o
    exact struct_of_frame h hf.1 hf.2.1 hf.2.2
  | toggleRepeat => exact struct_of_frame h rfl rfl rfl

theorem foldl_struct : ∀ (evs : List UiEvent) (st : PlayerState),
    StructInvariant st → StructInvariant (evs.foldl step st) := by
  intro evs
  induction evs with
  | nil => exact fun st h => h
  | cons e evs ih => exact fun st h => ih (step st e) (step_struct st e h)

theorem run_struct (evs : List UiEvent) : StructInvariant (run evs) :=
  foldl_struct evs initState ⟨fun _ => rfl, rfl⟩

theorem autoSelectFirst_no_select (s : PlayerState)
    (h : s.didInit = false → ∀ t, s.tracks.head? = some t → t.src = Option.none) :
    (autoSelectFirst s).activeId = s.activeId ∧
    (autoSelectFirst s).tracks = s.tracks ∧
    (autoSelectFirst s).prevLen = s.prevLen ∧
    (autoSelectFirst s).isPlaying = s.isPlaying := by
  rw [autoSelectFirst]
  split
  · rename_i hg
    dsimp only
    cases hhead : s.tracks.head? with
    | none => exact ⟨rfl, rfl, rfl, rfl⟩
    | some t =>
      dsimp only
      cases hsrc : t.src with
      | none => exact ⟨rfl, rfl, rfl, rfl⟩
      | some u =>
        exfalso
        have hn := h hg.2 t hhead
        rw [hsrc] at hn
        cases hn
  · exact ⟨rfl, rfl, rfl, rfl⟩

theorem autoSelectNew_no_select (s : PlayerState)
    (h : ∀ t, s.tracks[s.prevLen]? = some t → t.src = Option.none) :
    (autoSelectNew s).activeId = s.activeId ∧
    (autoSelectNew s).isPlaying = s.isPlaying := by
  rw [autoSelectNew]
  split
  · cases hget : s.tracks[s.prevLen]? with
    | none => exact ⟨rfl, rfl⟩
    | some t =>
      dsimp only
      cases hsrc : t.src with
      | none => exact ⟨rfl, rfl⟩
      | some u =>
        exfalso
        have hn := h t hget
        rw [hsrc] at hn
        cases hn
  · exact ⟨rfl, rfl⟩

theorem autoSelect_no_select (s : PlayerState)
    (ha : s.activeId = Option.none)
    (hfirst : s.didInit = false → ∀ t, s.tracks.head? = some t → t.src = Option.none)
    (hnewsel : ∀ t, s.tracks[s.prevLen]? = some t → t.src = Option.none) :
    (autoSelectEffects s).activeId = Option.none ∧
    (autoSelectEffects s).isPlaying = s.isPlaying := by
  have hA := autoSelectFirst_no_select s hfirst
  have hB := autoSelectNew_no_select (autoSelectFirst s) (by
    intro t hget
    rw [hA.2.1, hA.2.2.1] at hget
    exact hnewsel t hget)
  constructor
  · show (autoSelectNew (autoSelectFirst s)).activeId = Option.none
    rw [hB.1, hA.1, ha]
  · show (autoSelectNew (autoSelectFirst s)).isPlaying = s.isPlaying
    rw [hB.2, hA.2.2.2]

theorem toolResult_no_select (st : PlayerState) (meta : List ServerTrackMeta)
    (hinit : st.didInit = false → st.tracks = [])
    (hprev : st.prevLen = st.tracks.length)
    (hactive : st.activeId = Option.none) :
    (toolResultStep st meta).activeId = Option.none ∧
    (toolResultStep st meta).isPlaying = st.isPlaying := by
  rw [toolResultStep]
  by_cases hnew : 0 < (parseTracks meta).length
  · rw [if_pos hnew]
    apply autoSelect_no_select
    · exact hactive
    · intro hdi t hhead
      have hemp : st.tracks = [] := hinit hdi
      have hmem : t ∈ mergeTracks st.tracks (parseTracks meta) := mem_of_head?Eq hhead
      rw [hemp, mergeTracks, List.nil_append] at hmem
      exact parseTracks_src_none (List.mem_filter.mp hmem).1
    · intro t hget
      have hget' : (mergeTracks st.tracks (parseTracks meta))[st.prevLen]? = some t :=
        hget
      rw [mergeTracks, hprev, List.getElem?_append_right (Nat.le_refl _),
        Nat.sub_self] at hget'
      exact parseTracks_src_none (List.mem_filter.mp (List.getElem?_mem hget')).1
  · rw [if_neg hnew]
    apply autoSelect_no_select st hactive
    · intro hdi t hhead
      rw [hinit hdi] at hhead
      cases hhead
    · intro t hget
      rw [hprev, List.getElem?_eq_none (Nat.le_refl _)] at hget
      cases hget

/-- C9 (counterexample): with nothing active, a fresh batch is merged and
yet no track becomes active, because in the lazy variant incoming tracks
arrive with a null src and both auto-select effects require a non-null
source before selecting. -/
theorem auto_select_counterexample :
    (run []).activeId = Option.none ∧
    ¬ ((run [UiEvent.toolResult [⟨"t1", "/a.mp3", "A", Option.none⟩]]).activeId
        = some "t1") ∧
    (run [UiEvent.toolResult [⟨"t1", "/a.mp3", "A", Option.none⟩]]).activeId
      = Option.none := by
  decide

/-- C9 (amended): when nothing is active and a batch is merged, the lazy
variant selects nothing (fresh tracks have a null source, the selection
guards require one) and playback does not start; the eager variant, whose
parsed tracks always carry a source, selects the first track on the first
nonempty render and otherwise the first newly appended track, through
setActiveItem, which never starts playback. -/
theorem auto_select_tiebreak (evs : List UiEvent) (meta : List ServerTrackMeta)
    (hactive : (run evs).activeId = Option.none) :
    ((toolResultStep (run evs) meta).activeId = Option.none ∧
      (toolResultStep (run evs) meta).isPlaying = (run evs).isPlaying) ∧
    (∀ (tracks : List UiTrack) (prevLen : Nat) (t : UiTrack),
      tracks.head? = some t →
      eagerAutoSelect tracks prevLen Option.none false = some t) ∧
    (∀ (tracks : List UiTrack) (prevLen : Nat) (t : UiTrack),
      tracks[prevLen]? = some t →
      eagerAutoSelect tracks prevLen Option.none true = some t) ∧
    (∀ (s : PlayerState) (id u : String),
      (setActiveItem s id u).isPlaying = s.isPlaying) := by
  refine ⟨?_, ?_, ?_, fun s id u => rfl⟩
  · have hs := run_struct evs
    exact toolResult_no_select (run evs) meta hs.1 hs.2 hactive
  · intro tracks prevLen t hhead
    have hlen : 0 < tracks.length := by
      cases tracks with
      | nil => cases hhead
      | cons a l => simp
    rw [eagerAutoSelect, if_pos ⟨hlen, rfl⟩]
    exact hhead
  · intro tracks prevLen t hget
    have hlt : prevLen < tracks.length := (List.getElem?_eq_some.mp hget).1
    rw [eagerAutoSelect]
    rw [if_neg (by simp), if_pos ⟨hlt, rfl⟩]
    exact hget

/-- Witness for the amended C9: a fresh session receives one track; the
lazy machine selects nothing, and the eager selection picks the first
track without playing. -/
theorem auto_select_tiebreak_witness :
    (toolResultStep (run []) [⟨"t1", "/a.mp3", "A", Option.none⟩]).activeId
      = Option.none ∧
    eagerAutoSelect [⟨"t1", some "u1", "A", Option.none, "/a.mp3"⟩] 0
      Option.none false = some ⟨"t1", some "u1", "A", Option.none, "/a.mp3"⟩ := by
  have h := auto_select_tiebreak [] [⟨"t1", "/a.mp3", "A", Option.none⟩] (by decide)
  exact ⟨h.1.1, h.2.1 [⟨"t1", some "u1", "A", Option.none, "/a.mp3"⟩] 0
    ⟨"t1", some "u1", "A", Option.none, "/a.mp3"⟩ (by decide)⟩

end ElevenLabsPlayer
